import Mathlib

/-!
Verification development for the MSRD package-based submission client
(`src/Python/msrd.py`).

The repository is a small command-line client; its only non-trivial logic is
the job-assembly pipeline: `upload_file_and_generate_file_info`,
`update_file_info_in_job`, `add_file_info_to_job`, the `submit` command, and
the `print_response` helper.  The Python code mutates a JSON-loaded document
(nested dicts and lists) in place, so the embedding uses an explicit heap of
Python objects: every dict, list and string cell lives at an address, and the
append in `update_file_info_in_job` is a store update at the address of the
`fileInformations` list.  Fatal `exit(1)` calls and uncaught Python
exceptions are modelled with `Except`; the network and the file system are
parameters (`Env`, `FS`).  Each operation additionally returns the list of
observable events (upload calls, appends, output writes, the final job
submission) so that ordering claims can be stated.
-/

namespace Msrd

/-- Address of a Python object in the heap model. -/
abbrev Addr := Nat

/-- Python values reachable from a JSON-loaded document (`json.load`
produces nests of `dict`, `list`, `str`, numbers, booleans and `None`).
Containers hold addresses of their element objects, so the type is not
recursive and sharing/mutation behave exactly as in Python. -/
inductive HVal where
  | null
  | bool (b : Bool)
  | num (n : Int)
  | str (s : String)
  | arr (elems : List Addr)
  | obj (fields : List (String × Addr))
deriving Repr, DecidableEq

/-- Addresses stored directly inside one Python object. -/
def HVal.refs : HVal → List Addr
  | .arr elems => elems
  | .obj fields => fields.map (fun kv => kv.2)
  | _ => []

/-- The Python object heap: cell `a` is `cells.get? a`. -/
structure Heap where
  cells : List HVal
deriving Repr, DecidableEq

def Heap.get (h : Heap) (a : Addr) : Option HVal :=
  h.cells.get? a

def Heap.set (h : Heap) (a : Addr) (v : HVal) : Heap :=
  ⟨h.cells.set a v⟩

def Heap.alloc (h : Heap) (v : HVal) : Heap × Addr :=
  (⟨h.cells ++ [v]⟩, h.cells.length)

def Heap.size (h : Heap) : Nat :=
  h.cells.length

/-- A heap is closed when no object points outside the heap.  Every heap
produced by `json.load` is closed (Python objects cannot dangle). -/
def Heap.Closed (h : Heap) : Prop :=
  ∀ v ∈ h.cells, ∀ a ∈ v.refs, a < h.cells.length

instance (h : Heap) : Decidable h.Closed := by
  unfold Heap.Closed
  infer_instance

/-- `h2` is `h1` with zero or more freshly allocated cells after it.
Allocation never moves or rewrites existing cells, so a heap grown only by
`Heap.alloc` extends the original. -/
def Heap.Extends (h2 h1 : Heap) : Prop :=
  ∃ ext, h2.cells = h1.cells ++ ext

/-- Lookup in a Python dict.  Keys of a JSON-loaded dict are unique, so an
association list with first-match lookup is faithful. -/
def assocGet (kvs : List (String × Addr)) (k : String) : Option Addr :=
  match kvs.find? (fun kv => kv.1 == k) with
  | some kv => some kv.2
  | none => none

/-- One Python subscript `x[k]` on a heap object: succeeds exactly when the
object at `a` is a dict carrying key `k` (a missing key raises `KeyError`,
a non-dict raises `TypeError`; both are caught by the caller). -/
def getObjField (h : Heap) (a : Addr) (k : String) : Option Addr :=
  match h.get a with
  | some (.obj kvs) => assocGet kvs k
  | _ => none

/-- Evaluate `job['setup']['package']['fileInformations']` and check that the
result is a Python list, as the `try` block of `update_file_info_in_job`
does: any `KeyError`/`TypeError`/`AttributeError` on the way (missing key,
non-dict on the path, or a non-list at the end, which has no `.append`)
yields `none`.  On success, returns the address of the list object together
with its current elements. -/
def fileInfoSlot (h : Heap) (jobA : Addr) : Option (Addr × List Addr) :=
  (getObjField h jobA "setup").bind fun sA =>
    (getObjField h sA "package").bind fun pA =>
      (getObjField h pA "fileInformations").bind fun fA =>
        match h.get fA with
        | some (.arr xs) => some (fA, xs)
        | _ => none

/-- One iteration of the loop body of `update_file_info_in_job`:
`job['setup']['package']['fileInformations'].append(file_info)`.
`none` models the caught exception (the heap is untouched in that case,
since the lookups have no side effect and `append` was never reached). -/
def tryAppendFileInfo (h : Heap) (jobA infoA : Addr) : Option Heap :=
  match fileInfoSlot h jobA with
  | some (fA, xs) => some (h.set fA (.arr (xs ++ [infoA])))
  | none => none

/-- Python exceptions that the script can raise and never catches. -/
inductive PyError where
  | requestException (detail : String)
  | fileNotFoundError (path : String)
  | unsupportedOperationNotWritable
deriving Repr, DecidableEq

/-- A fatal end of the run: either an explicit `print(message)` followed by
`exit(1)`, or an uncaught Python exception (which also terminates the
process with a non-zero status). -/
inductive Fatal where
  | exit1 (message : String)
  | pyRaise (err : PyError)
deriving Repr, DecidableEq

/-- Observable events of one run, in order. -/
inductive Event where
  | uploadCall (file : String)
  | appendInfo (infoA : Addr)
  | wroteOutput (path : String)
  | submitJobCall
deriving Repr, DecidableEq

/-- The environment seen by the pipeline: `fileSize file` models
`Path(file).stat().st_size` and `upload file` models the response text of
`client.upload_file(file)` (`.error` models a raised transport exception,
which propagates and kills the run). -/
structure Env where
  fileSize : String → Nat
  upload : String → Except PyError String

/-- The local file system, as far as `open(path)` (read mode) needs it. -/
structure FS where
  pathExists : String → Bool

/-- Message printed by `upload_file_and_generate_file_info` before
`exit(1)`, from the format string
`'ERROR: file "..." has byte size ..., which exceeds limit of 4mb'`. -/
def sizeErrorMessage (file : String) (size : Nat) : String :=
  "ERROR: file \"" ++ file ++ "\" has byte size " ++ toString size ++
    ", which exceeds limit of 4mb"

/-- Message printed by `update_file_info_in_job` before `exit(1)`. -/
def missingStructureMessage : String :=
  "Job file input is missing required setup.package.fileInformations data."

def MAX_FILE_SIZE : Nat := 4194304

/-- Python `text.strip('"')` as used on the upload response: removes every
leading and every trailing occurrence of the `'"'` character. -/
def pyStripQuotes (s : String) : String :=
  String.mk (((s.data.dropWhile (fun c => c == '"')).reverse.dropWhile
    (fun c => c == '"')).reverse)

/-- Modelled from the spec (for comparison only): the spec's contract of
"stripping exactly one leading and one trailing double-quote character". -/
def stripOneQuoteSpec (s : String) : String :=
  let l1 := match s.data with
    | '"' :: t => t
    | l => l
  let l2 := match l1.reverse with
    | '"' :: t => t.reverse
    | _ => l1
  String.mk l2

/-- Python `Path(file).name` for ordinary POSIX-style paths: the last path
component, i.e. what follows the last slash once trailing slashes are
ignored. -/
def baseName (p : String) : String :=
  String.mk (((p.data.reverse.dropWhile (fun c => c == '/')).takeWhile
    (fun c => c != '/')).reverse)

/-- Allocate the fresh Python dict
`{'action': 'DownloadOnly', 'name': name, 'url': url}` (keys in insertion
order) together with its three string values. -/
def allocFileInfo (h : Heap) (name url : String) : Heap × Addr :=
  let (h1, aAct) := h.alloc (.str "DownloadOnly")
  let (h2, aName) := h1.alloc (.str name)
  let (h3, aUrl) := h2.alloc (.str url)
  h3.alloc (.obj [("action", aAct), ("name", aName), ("url", aUrl)])

/-- Embedding of `upload_file_and_generate_file_info(client, file)`:
check the size limit (exiting before any network call when exceeded),
upload, strip the quotes from the response text, and build the
file-information dict. -/
def upload_file_and_generate_file_info (env : Env) (h : Heap) (file : String) :
    Heap × List Event × Except Fatal Addr :=
  let size := env.fileSize file
  if size > MAX_FILE_SIZE then
    (h, [], .error (.exit1 (sizeErrorMessage file size)))
  else
    let name := baseName file
    match env.upload file with
    | .error e => (h, [.uploadCall file], .error (.pyRaise e))
    | .ok text =>
      let url := pyStripQuotes text
      let (h1, infoA) := allocFileInfo h name url
      (h1, [.uploadCall file], .ok infoA)

/-- Embedding of `update_file_info_in_job(job, file_infos)`: append each
file info in turn; on the first failing append, print the missing-structure
message and `exit(1)` (the heap is left as it was at that point). -/
def update_file_info_in_job (h : Heap) (jobA : Addr) (file_infos : List Addr) :
    Heap × List Event × Except Fatal Addr :=
  match file_infos with
  | [] => (h, [], .ok jobA)
  | infoA :: rest =>
    match tryAppendFileInfo h jobA infoA with
    | some h1 =>
      let (h2, evs, r) := update_file_info_in_job h1 jobA rest
      (h2, .appendInfo infoA :: evs, r)
    | none => (h, [], .error (.exit1 missingStructureMessage))

/-- The upload loop at the start of `add_file_info_to_job`: upload each file
in order, accumulating the generated file-information addresses.  A fatal
result propagates immediately (exceptions unwind, `exit` terminates). -/
def uploadLoop (env : Env) (h : Heap) : List String → Heap × List Event × Except Fatal (List Addr)
  | [] => (h, [], .ok [])
  | f :: fs =>
    match upload_file_and_generate_file_info env h f with
    | (h1, evs, .error e) => (h1, evs, .error e)
    | (h1, evs, .ok infoA) =>
      match uploadLoop env h1 fs with
      | (h2, evs2, r) => (h2, evs ++ evs2, r.map (fun rest => infoA :: rest))

/-- Embedding of `add_file_info_to_job(client, job, files)`: run all the
uploads first, then (only when the accumulated list is non-empty, matching
`if file_info:`) merge the results into the job document. -/
def add_file_info_to_job (env : Env) (h : Heap) (jobA : Addr)
    (files : List String) : Heap × List Event × Except Fatal Addr :=
  match uploadLoop env h files with
  | (h1, evs, .error e) => (h1, evs, .error e)
  | (h1, evs, .ok file_info) =>
    if file_info.isEmpty then (h1, evs, .ok jobA)
    else
      let (h2, evs2, r) := update_file_info_in_job h1 jobA file_info
      (h2, evs ++ evs2, r)

/-- Python `open(path)` with the default mode `'r'`: succeeds only when the
path exists, and the handle is read-only. -/
def pyOpenDefault (fs : FS) (path : String) : Except PyError Bool :=
  if fs.pathExists path then .ok false
  else .error (.fileNotFoundError path)

/-- `json.dump(job, out_file, indent=2)`: writes through `out_file.write`,
which raises `io.UnsupportedOperation` when the handle is not writable. -/
def jsonDumpTo (writable : Bool) : Except PyError Unit :=
  if writable then .ok () else .error .unsupportedOperationNotWritable

/-- Embedding of the `submit` command from the point where the job template
has been parsed into the heap at `jobA`: assemble the document, then (when
`output_job_path` is truthy — Python treats `None` and `''` as falsy) open
the output path and dump the document there, then submit the job. -/
def submit (env : Env) (fs : FS) (h : Heap) (jobA : Addr)
    (output_job_path : Option String) (files : List String) :
    Heap × List Event × Except Fatal Addr :=
  match add_file_info_to_job env h jobA files with
  | (h1, evs, .error e) => (h1, evs, .error e)
  | (h1, evs, .ok jobA1) =>
    match output_job_path with
    | none => (h1, evs ++ [.submitJobCall], .ok jobA1)
    | some p =>
      if p = "" then (h1, evs ++ [.submitJobCall], .ok jobA1)
      else
        match pyOpenDefault fs p with
        | .error e => (h1, evs, .error (.pyRaise e))
        | .ok writable =>
          match jsonDumpTo writable with
          | .error e => (h1, evs, .error (.pyRaise e))
          | .ok _ => (h1, evs ++ [.wroteOutput p, .submitJobCall], .ok jobA1)

/-- Embedding of `print_response(response)`: try to parse the body as
structured data; print the pretty-printed parse on success
(`json.dumps(response.json(), indent=2)`), and fall back to the raw body
text when parsing raises `json.JSONDecodeError`.  The parser and printer
are parameters; `parse text = none` models the decode error. -/
def print_response {α : Type} (parse : String → Option α) (dumps : α → String)
    (text : String) : String :=
  match parse text with
  | some v => dumps v
  | none => text

/-- Read a string-valued field of a dict object in the heap. -/
def readStrField (h : Heap) (a : Addr) (k : String) : Option String :=
  match h.get a with
  | some (.obj kvs) =>
    match assocGet kvs k with
    | some vA =>
      match h.get vA with
      | some (.str s) => some s
      | _ => none
    | _ => none
  | _ => none

/-- Shape of a freshly generated file-information object: a dict with
exactly the three fields `action`, `name`, `url` (in source insertion
order), all of whose cells live at addresses `≥ lo`. -/
def InfoShape (h : Heap) (lo : Nat) (infoA : Addr) (name url : String) : Prop :=
  ∃ aAct aName aUrl,
    h.get infoA = some (.obj [("action", aAct), ("name", aName), ("url", aUrl)]) ∧
    h.get aAct = some (.str "DownloadOnly") ∧
    h.get aName = some (.str name) ∧
    h.get aUrl = some (.str url) ∧
    lo ≤ aAct ∧ lo ≤ aName ∧ lo ≤ aUrl ∧ lo ≤ infoA

/-! Concrete fixtures used by witnesses and counterexamples. -/

/-- Environment whose uploads all answer with the quoted reference
`"https://x/abc"` and whose files are all tiny. -/
def envOk : Env :=
  { fileSize := fun _ => 10, upload := fun _ => .ok "\"https://x/abc\"" }

/-- Environment whose upload response carries doubled quotes. -/
def envDouble : Env :=
  { fileSize := fun _ => 0, upload := fun _ => .ok "\"\"a\"\"" }

/-- Environment in which every file is one byte over the limit. -/
def envBig : Env :=
  { fileSize := fun _ => 4194305, upload := fun _ => .ok "\"u\"" }

/-- Environment in which every file is exactly at the limit. -/
def envMax : Env :=
  { fileSize := fun _ => 4194304, upload := fun _ => .ok "\"u\"" }

/-- Heap holding only the job document `{}` at address 0. -/
def hEmptyObj : Heap := ⟨[.obj []]⟩

/-- Heap holding the template from the end-to-end scenario,
`{"setup": {"package": {"fileInformations": []}}}`, with the document
object at address 3 and the (empty) file-information list at address 0. -/
def hTemplate : Heap :=
  ⟨[.arr [], .obj [("fileInformations", 0)], .obj [("package", 1)],
    .obj [("setup", 2)]]⟩

/-- A file system on which every path exists. -/
def fsAll : FS := { pathExists := fun _ => true }

/-- Environment whose every upload raises a transport exception. -/
def envFail : Env :=
  { fileSize := fun _ => 0,
    upload := fun _ => .error (.requestException "connection aborted") }

instance {ε α : Type} [DecidableEq ε] [DecidableEq α] :
    DecidableEq (Except ε α) := fun x y =>
  match x, y with
  | .ok a, .ok b =>
    match decEq a b with
    | isTrue hh => isTrue (by rw [hh])
    | isFalse hh => isFalse (fun he => hh (Except.ok.inj he))
  | .error a, .error b =>
    match decEq a b with
    | isTrue hh => isTrue (by rw [hh])
    | isFalse hh => isFalse (fun he => hh (Except.error.inj he))
  | .ok _, .error _ => isFalse (fun he => Except.noConfusion he)
  | .error _, .ok _ => isFalse (fun he => Except.noConfusion he)

/-! Helper lemmas about the heap model. -/

theorem Heap.extends_refl (h : Heap) : h.Extends h :=
  ⟨[], by simp⟩

theorem Heap.extends_trans {h3 h2 h1 : Heap} (a : h3.Extends h2)
    (b : h2.Extends h1) : h3.Extends h1 := by
  obtain ⟨e1, he1⟩ := a
  obtain ⟨e2, he2⟩ := b
  exact ⟨e2 ++ e1, by rw [he1, he2, List.append_assoc]⟩

theorem Heap.get_lt {h : Heap} {a : Addr} {v : HVal}
    (e : h.get a = some v) : a < h.size := by
  obtain ⟨hlt, -⟩ := List.get?_eq_some.mp e
  exact hlt

theorem Heap.get_mono {h2 h1 : Heap} (hx : h2.Extends h1) {a : Addr} {v : HVal}
    (e : h1.get a = some v) : h2.get a = some v := by
  obtain ⟨ext, hc⟩ := hx
  have hlt := Heap.get_lt e
  show h2.cells.get? a = some v
  rw [hc, List.get?_append hlt]
  exact e

theorem Heap.get_extends_lt {h2 h1 : Heap} (hx : h2.Extends h1) {a : Addr}
    (hlt : a < h1.size) : h2.get a = h1.get a := by
  obtain ⟨ext, hc⟩ := hx
  show h2.cells.get? a = h1.cells.get? a
  rw [hc, List.get?_append hlt]

theorem Heap.get_set_self {h : Heap} {a : Addr} {v0 : HVal}
    (e : h.get a = some v0) (v : HVal) : (h.set a v).get a = some v :=
  List.get?_set_eq_of_lt v (Heap.get_lt e)

theorem Heap.get_set_ne {h : Heap} {a b : Addr} (ne : a ≠ b) (v : HVal) :
    (h.set a v).get b = h.get b :=
  List.get?_set_ne v h.cells ne

theorem Heap.size_set (h : Heap) (a : Addr) (v : HVal) :
    (h.set a v).size = h.size := by
  simp [Heap.set, Heap.size]

theorem Heap.get_ne_of_get_ne {h : Heap} {a b : Addr} {v w : HVal}
    (ea : h.get a = some v) (eb : h.get b = some w) (hvw : v ≠ w) : a ≠ b := by
  intro hab
  rw [hab, eb] at ea
  exact hvw (Option.some.inj ea).symm

/-! Lemmas about field lookup and the file-information slot. -/

theorem getObjField_lt_left {h : Heap} {a : Addr} {k : String} {b : Addr}
    (e : getObjField h a k = some b) : a < h.size := by
  unfold getObjField at e
  cases hv : h.get a with
  | none => rw [hv] at e; cases e
  | some v => exact Heap.get_lt hv

theorem assocGet_mem {kvs : List (String × Addr)} {k : String} {b : Addr}
    (e : assocGet kvs k = some b) : ∃ kv ∈ kvs, kv.2 = b := by
  unfold assocGet at e
  cases hf : kvs.find? (fun kv => kv.1 == k) with
  | none => rw [hf] at e; cases e
  | some kv =>
    rw [hf] at e
    exact ⟨kv, List.mem_of_find?_eq_some hf, Option.some.inj e⟩

theorem getObjField_closed {h : Heap} (hc : h.Closed) {a : Addr} {k : String}
    {b : Addr} (e : getObjField h a k = some b) : b < h.size := by
  unfold getObjField at e
  cases hv : h.get a with
  | none => rw [hv] at e; cases e
  | some v =>
    rw [hv] at e
    cases v with
    | obj kvs =>
      obtain ⟨kv, hkv, hb⟩ := assocGet_mem e
      have hrefs : b ∈ (HVal.obj kvs).refs := by
        show b ∈ kvs.map (fun kv => kv.2)
        exact hb ▸ List.mem_map_of_mem (fun kv => kv.2) hkv
      exact hc (HVal.obj kvs) (List.get?_mem hv) b hrefs
    | null => cases e
    | bool b0 => cases e
    | num n0 => cases e
    | str s0 => cases e
    | arr es => cases e

theorem getObjField_extends_eq {h2 h1 : Heap} (hx : h2.Extends h1) {a : Addr}
    (hlt : a < h1.size) (k : String) :
    getObjField h2 a k = getObjField h1 a k := by
  unfold getObjField
  rw [Heap.get_extends_lt hx hlt]

theorem getObjField_set_arr {h : Heap} {fA : Addr} {xs : List Addr}
    (hgetf : h.get fA = some (.arr xs)) (ys : List Addr) (a : Addr) (k : String) :
    getObjField (h.set fA (.arr ys)) a k = getObjField h a k := by
  unfold getObjField
  by_cases haf : a = fA
  · subst haf
    rw [Heap.get_set_self hgetf (.arr ys), hgetf]
  · rw [Heap.get_set_ne (Ne.symm haf) (.arr ys)]

/-- Inversion of a successful slot lookup: the whole subscript chain of
`job['setup']['package']['fileInformations']` succeeds and ends in a list. -/
theorem fileInfoSlot_inv {h : Heap} {jobA fA : Addr} {xs : List Addr}
    (e : fileInfoSlot h jobA = some (fA, xs)) :
    ∃ sA pA, getObjField h jobA "setup" = some sA ∧
      getObjField h sA "package" = some pA ∧
      getObjField h pA "fileInformations" = some fA ∧
      h.get fA = some (.arr xs) := by
  unfold fileInfoSlot at e
  cases e1 : getObjField h jobA "setup" with
  | none => rw [e1, Option.none_bind] at e; cases e
  | some sA =>
    rw [e1, Option.some_bind] at e
    cases e2 : getObjField h sA "package" with
    | none => rw [e2, Option.none_bind] at e; cases e
    | some pA =>
      rw [e2, Option.some_bind] at e
      cases e3 : getObjField h pA "fileInformations" with
      | none => rw [e3, Option.none_bind] at e; cases e
      | some fA0 =>
        rw [e3, Option.some_bind] at e
        cases e4 : h.get fA0 with
        | none => rw [e4] at e; cases e
        | some v =>
          rw [e4] at e
          cases v with
          | arr ys =>
            have hp : fA0 = fA ∧ ys = xs := by
              have hpe := Option.some.inj e
              exact ⟨congrArg Prod.fst hpe, congrArg Prod.snd hpe⟩
            obtain ⟨rfl, rfl⟩ := hp
            exact ⟨sA, pA, e1 ▸ rfl, e2, e3, e4⟩
          | null => cases e
          | bool b0 => cases e
          | num n0 => cases e
          | str s0 => cases e
          | obj kvs => cases e

theorem fileInfoSlot_intro {h : Heap} {jobA sA pA fA : Addr} {xs : List Addr}
    (e1 : getObjField h jobA "setup" = some sA)
    (e2 : getObjField h sA "package" = some pA)
    (e3 : getObjField h pA "fileInformations" = some fA)
    (e4 : h.get fA = some (.arr xs)) :
    fileInfoSlot h jobA = some (fA, xs) := by
  unfold fileInfoSlot
  rw [e1, Option.some_bind, e2, Option.some_bind, e3, Option.some_bind, e4]

theorem fileInfoSlot_get {h : Heap} {jobA fA : Addr} {xs : List Addr}
    (e : fileInfoSlot h jobA = some (fA, xs)) : h.get fA = some (.arr xs) :=
  (fileInfoSlot_inv e).choose_spec.choose_spec.2.2.2

/-- The slot is insensitive to growing the heap by fresh cells, as long as
the original heap is closed and the document lives in it. -/
theorem fileInfoSlot_extends_eq {h2 h1 : Heap} (hc : h1.Closed)
    (hx : h2.Extends h1) {jobA : Addr} (hlt : jobA < h1.size) :
    fileInfoSlot h2 jobA = fileInfoSlot h1 jobA := by
  unfold fileInfoSlot
  rw [getObjField_extends_eq hx hlt]
  cases e1 : getObjField h1 jobA "setup" with
  | none => rfl
  | some sA =>
    rw [Option.some_bind, Option.some_bind,
      getObjField_extends_eq hx (getObjField_closed hc e1)]
    cases e2 : getObjField h1 sA "package" with
    | none => rfl
    | some pA =>
      rw [Option.some_bind, Option.some_bind,
        getObjField_extends_eq hx (getObjField_closed hc e2)]
      cases e3 : getObjField h1 pA "fileInformations" with
      | none => rfl
      | some fA =>
        rw [Option.some_bind, Option.some_bind,
          Heap.get_extends_lt hx (getObjField_closed hc e3)]

/-- Appending to the file-information list changes the slot contents and
nothing about the path that reaches it. -/
theorem fileInfoSlot_set {h : Heap} {jobA fA : Addr} {xs : List Addr}
    (e : fileInfoSlot h jobA = some (fA, xs)) (ys : List Addr) :
    fileInfoSlot (h.set fA (.arr ys)) jobA = some (fA, ys) := by
  obtain ⟨sA, pA, e1, e2, e3, e4⟩ := fileInfoSlot_inv e
  have f1 : getObjField (h.set fA (.arr ys)) jobA "setup" = some sA := by
    rw [getObjField_set_arr e4 ys jobA "setup"]; exact e1
  have f2 : getObjField (h.set fA (.arr ys)) sA "package" = some pA := by
    rw [getObjField_set_arr e4 ys sA "package"]; exact e2
  have f3 : getObjField (h.set fA (.arr ys)) pA "fileInformations" = some fA := by
    rw [getObjField_set_arr e4 ys pA "fileInformations"]; exact e3
  exact fileInfoSlot_intro f1 f2 f3 (Heap.get_set_self e4 (.arr ys))

/-! Unfolding equations for the recursive operations. -/

theorem tryAppendFileInfo_some {h : Heap} {jobA fA : Addr} {xs : List Addr}
    (e : fileInfoSlot h jobA = some (fA, xs)) (infoA : Addr) :
    tryAppendFileInfo h jobA infoA = some (h.set fA (.arr (xs ++ [infoA]))) := by
  unfold tryAppendFileInfo
  rw [e]

theorem tryAppendFileInfo_none {h : Heap} {jobA : Addr}
    (e : fileInfoSlot h jobA = none) (infoA : Addr) :
    tryAppendFileInfo h jobA infoA = none := by
  unfold tryAppendFileInfo
  rw [e]

theorem update_nil (h : Heap) (jobA : Addr) :
    update_file_info_in_job h jobA [] = (h, [], .ok jobA) :=
  rfl

theorem update_cons_some {h h1 : Heap} {jobA i : Addr}
    (e : tryAppendFileInfo h jobA i = some h1) (rest : List Addr) :
    update_file_info_in_job h jobA (i :: rest) =
      ((update_file_info_in_job h1 jobA rest).1,
       Event.appendInfo i :: (update_file_info_in_job h1 jobA rest).2.1,
       (update_file_info_in_job h1 jobA rest).2.2) := by
  conv_lhs => unfold update_file_info_in_job
  rw [e]
theorem update_cons_none {h : Heap} {jobA i : Addr}
    (e : tryAppendFileInfo h jobA i = none) (rest : List Addr) :
    update_file_info_in_job h jobA (i :: rest) =
      (h, [], .error (.exit1 missingStructureMessage)) := by
  unfold update_file_info_in_job
  rw [e]

theorem uploadLoop_nil (env : Env) (h : Heap) :
    uploadLoop env h [] = (h, [], .ok []) :=
  rfl

theorem uploadLoop_cons_error {env : Env} {h h1 : Heap} {f : String}
    {evs : List Event} {err : Fatal}
    (e : upload_file_and_generate_file_info env h f = (h1, evs, .error err))
    (fs : List String) :
    uploadLoop env h (f :: fs) = (h1, evs, .error err) := by
  unfold uploadLoop
  rw [e]

theorem uploadLoop_cons_ok {env : Env} {h h1 : Heap} {f : String}
    {evs : List Event} {infoA : Addr}
    (e : upload_file_and_generate_file_info env h f = (h1, evs, .ok infoA))
    (fs : List String) :
    uploadLoop env h (f :: fs) =
      ((uploadLoop env h1 fs).1,
       evs ++ (uploadLoop env h1 fs).2.1,
       ((uploadLoop env h1 fs).2.2).map (fun rest => infoA :: rest)) := by
  conv_lhs => unfold uploadLoop
  rw [e]
theorem upload_eq_oversize {env : Env} {h : Heap} {f : String}
    (hs : env.fileSize f > MAX_FILE_SIZE) :
    upload_file_and_generate_file_info env h f =
      (h, [], .error (.exit1 (sizeErrorMessage f (env.fileSize f)))) := by
  unfold upload_file_and_generate_file_info
  rw [if_pos hs]

theorem upload_eq_error {env : Env} {h : Heap} {f : String} {err : PyError}
    (hs : ¬ env.fileSize f > MAX_FILE_SIZE) (hu : env.upload f = .error err) :
    upload_file_and_generate_file_info env h f =
      (h, [.uploadCall f], .error (.pyRaise err)) := by
  unfold upload_file_and_generate_file_info
  rw [if_neg hs, hu]

theorem upload_eq_ok {env : Env} {h : Heap} {f t : String}
    (hs : ¬ env.fileSize f > MAX_FILE_SIZE) (hu : env.upload f = .ok t) :
    upload_file_and_generate_file_info env h f =
      ((allocFileInfo h (baseName f) (pyStripQuotes t)).1, [.uploadCall f],
       .ok (allocFileInfo h (baseName f) (pyStripQuotes t)).2) := by
  unfold upload_file_and_generate_file_info
  rw [if_neg hs, hu]

theorem add_eq_error {env : Env} {h h1 : Heap} {jobA : Addr}
    {files : List String} {evs : List Event} {err : Fatal}
    (e : uploadLoop env h files = (h1, evs, .error err)) :
    add_file_info_to_job env h jobA files = (h1, evs, .error err) := by
  unfold add_file_info_to_job
  rw [e]

theorem add_eq_ok_nil {env : Env} {h h1 : Heap} {jobA : Addr}
    {files : List String} {evs : List Event}
    (e : uploadLoop env h files = (h1, evs, .ok [])) :
    add_file_info_to_job env h jobA files = (h1, evs, .ok jobA) := by
  unfold add_file_info_to_job
  rw [e]
  rfl
theorem add_eq_ok_cons {env : Env} {h h1 : Heap} {jobA : Addr}
    {files : List String} {evs : List Event} {i : Addr} {is : List Addr}
    (e : uploadLoop env h files = (h1, evs, .ok (i :: is))) :
    add_file_info_to_job env h jobA files =
      ((update_file_info_in_job h1 jobA (i :: is)).1,
       evs ++ (update_file_info_in_job h1 jobA (i :: is)).2.1,
       (update_file_info_in_job h1 jobA (i :: is)).2.2) := by
  conv_lhs => unfold add_file_info_to_job
  rw [e]
  rfl
/-! Shape of freshly generated file-information objects. -/

theorem get_append_right_add {α : Type} (l ext : List α) (i : Nat) :
    (l ++ ext).get? (l.length + i) = ext.get? i := by
  rw [List.get?_append_right (Nat.le_add_right _ _), Nat.add_sub_cancel_left]

theorem InfoShape.mono_lo {H : Heap} {lo lo' : Nat} {a : Addr} {n u : String}
    (hle : lo ≤ lo') (hs : InfoShape H lo' a n u) : InfoShape H lo a n u := by
  obtain ⟨aA, aN, aU, h1, h2, h3, h4, b1, b2, b3, b4⟩ := hs
  exact ⟨aA, aN, aU, h1, h2, h3, h4, le_trans hle b1, le_trans hle b2,
    le_trans hle b3, le_trans hle b4⟩

theorem InfoShape.mono_heap {H2 H : Heap} (hx : H2.Extends H) {lo : Nat}
    {a : Addr} {n u : String} (hs : InfoShape H lo a n u) :
    InfoShape H2 lo a n u := by
  obtain ⟨aA, aN, aU, h1, h2, h3, h4, b1, b2, b3, b4⟩ := hs
  exact ⟨aA, aN, aU, Heap.get_mono hx h1, Heap.get_mono hx h2,
    Heap.get_mono hx h3, Heap.get_mono hx h4, b1, b2, b3, b4⟩

theorem InfoShape.set_below {H : Heap} {fA : Addr} {v : HVal} {lo : Nat}
    {a : Addr} {n u : String} (hlt : fA < lo) (hs : InfoShape H lo a n u) :
    InfoShape (H.set fA v) lo a n u := by
  obtain ⟨aA, aN, aU, h1, h2, h3, h4, b1, b2, b3, b4⟩ := hs
  refine ⟨aA, aN, aU, ?_, ?_, ?_, ?_, b1, b2, b3, b4⟩
  · rw [Heap.get_set_ne (Nat.ne_of_lt (lt_of_lt_of_le hlt b4)) v]; exact h1
  · rw [Heap.get_set_ne (Nat.ne_of_lt (lt_of_lt_of_le hlt b1)) v]; exact h2
  · rw [Heap.get_set_ne (Nat.ne_of_lt (lt_of_lt_of_le hlt b2)) v]; exact h3
  · rw [Heap.get_set_ne (Nat.ne_of_lt (lt_of_lt_of_le hlt b3)) v]; exact h4

theorem InfoShape.read {H : Heap} {lo : Nat} {a : Addr} {n u : String}
    (hs : InfoShape H lo a n u) :
    readStrField H a "action" = some "DownloadOnly" ∧
      readStrField H a "name" = some n ∧
      readStrField H a "url" = some u := by
  obtain ⟨aA, aN, aU, h1, h2, h3, h4, -, -, -, -⟩ := hs
  refine ⟨?_, ?_, ?_⟩ <;>
    simp [readStrField, assocGet, h1, h2, h3, h4, List.find?]

theorem allocFileInfo_eq (h : Heap) (n u : String) :
    allocFileInfo h n u =
      (⟨h.cells ++ [.str "DownloadOnly", .str n, .str u,
          .obj [("action", h.size), ("name", h.size + 1), ("url", h.size + 2)]]⟩,
       h.size + 3) := by
  simp [allocFileInfo, Heap.alloc, Heap.size, List.append_assoc]

theorem allocFileInfo_extends (h : Heap) (n u : String) :
    (allocFileInfo h n u).1.Extends h := by
  rw [allocFileInfo_eq]
  exact ⟨_, rfl⟩

theorem allocFileInfo_size (h : Heap) (n u : String) :
    (allocFileInfo h n u).1.size = h.size + 4 := by
  rw [allocFileInfo_eq]
  simp [Heap.size]

theorem allocFileInfo_shape (h : Heap) (n u : String) :
    InfoShape (allocFileInfo h n u).1 h.size (allocFileInfo h n u).2 n u := by
  rw [allocFileInfo_eq]
  have g0 := get_append_right_add h.cells [HVal.str "DownloadOnly", .str n, .str u,
    .obj [("action", h.size), ("name", h.size + 1), ("url", h.size + 2)]] 0
  have g1 := get_append_right_add h.cells [HVal.str "DownloadOnly", .str n, .str u,
    .obj [("action", h.size), ("name", h.size + 1), ("url", h.size + 2)]] 1
  have g2 := get_append_right_add h.cells [HVal.str "DownloadOnly", .str n, .str u,
    .obj [("action", h.size), ("name", h.size + 1), ("url", h.size + 2)]] 2
  have g3 := get_append_right_add h.cells [HVal.str "DownloadOnly", .str n, .str u,
    .obj [("action", h.size), ("name", h.size + 1), ("url", h.size + 2)]] 3
  refine ⟨h.size, h.size + 1, h.size + 2, ?_, ?_, ?_, ?_,
    le_refl _, by omega, by omega, by omega⟩
  · show (h.cells ++ _).get? (h.cells.length + 3) = _
    rw [g3]
    rfl
  · show (h.cells ++ _).get? (h.cells.length + 0) = _
    rw [g0]
    rfl
  · show (h.cells ++ _).get? (h.cells.length + 1) = _
    rw [g1]
    rfl
  · show (h.cells ++ _).get? (h.cells.length + 2) = _
    rw [g2]
    rfl

/-! Characterization of a successful upload and of the upload loop. -/

theorem upload_ok_full {env : Env} {h : Heap} {f t : String}
    (hsz : env.fileSize f ≤ MAX_FILE_SIZE) (hu : env.upload f = .ok t) :
    ∃ infoA H,
      upload_file_and_generate_file_info env h f = (H, [.uploadCall f], .ok infoA) ∧
      H.Extends h ∧ H.size = h.size + 4 ∧ h.size ≤ infoA ∧
      InfoShape H h.size infoA (baseName f) (pyStripQuotes t) := by
  have hng : ¬ env.fileSize f > MAX_FILE_SIZE := not_lt.mpr hsz
  refine ⟨(allocFileInfo h (baseName f) (pyStripQuotes t)).2,
    (allocFileInfo h (baseName f) (pyStripQuotes t)).1,
    upload_eq_ok hng hu, allocFileInfo_extends h _ _, allocFileInfo_size h _ _,
    ?_, allocFileInfo_shape h _ _⟩
  rw [allocFileInfo_eq]
  omega

theorem uploadLoop_extends (env : Env) (fs : List String) :
    ∀ h : Heap, (uploadLoop env h fs).1.Extends h := by
  induction fs with
  | nil =>
    intro h
    rw [uploadLoop_nil]
    exact Heap.extends_refl h
  | cons f fs ih =>
    intro h
    by_cases hs : env.fileSize f > MAX_FILE_SIZE
    · rw [uploadLoop_cons_error (upload_eq_oversize hs) fs]
      exact Heap.extends_refl h
    · cases hu : env.upload f with
      | error err =>
        rw [uploadLoop_cons_error (upload_eq_error hs hu) fs]
        exact Heap.extends_refl h
      | ok t =>
        rw [uploadLoop_cons_ok (upload_eq_ok hs hu) fs]
        exact Heap.extends_trans
          (ih (allocFileInfo h (baseName f) (pyStripQuotes t)).1)
          (allocFileInfo_extends h (baseName f) (pyStripQuotes t))

theorem uploadLoop_trace (env : Env) (fs : List String) :
    ∀ h : Heap, ∀ ev ∈ (uploadLoop env h fs).2.1, ∃ g, ev = .uploadCall g := by
  induction fs with
  | nil =>
    intro h ev hev
    rw [uploadLoop_nil] at hev
    cases hev
  | cons f fs ih =>
    intro h ev hev
    by_cases hs : env.fileSize f > MAX_FILE_SIZE
    · rw [uploadLoop_cons_error (upload_eq_oversize hs) fs] at hev
      cases hev
    · cases hu : env.upload f with
      | error err =>
        rw [uploadLoop_cons_error (upload_eq_error hs hu) fs] at hev
        have hev2 : ev = Event.uploadCall f := by simpa using hev
        exact ⟨f, hev2⟩
      | ok t =>
        rw [uploadLoop_cons_ok (upload_eq_ok hs hu) fs] at hev
        have hev2 : ev = Event.uploadCall f ∨
            ev ∈ (uploadLoop env (allocFileInfo h (baseName f)
              (pyStripQuotes t)).1 fs).2.1 := by simpa using hev
        rcases hev2 with rfl | h2
        · exact ⟨f, rfl⟩
        · exact ih _ ev h2

theorem uploadLoop_ok_full (env : Env) (fs : List String) :
    ∀ h : Heap,
      (∀ f ∈ fs, env.fileSize f ≤ MAX_FILE_SIZE ∧ ∃ t, env.upload f = .ok t) →
      ∃ infos H,
        uploadLoop env h fs = (H, fs.map Event.uploadCall, .ok infos) ∧
        H.Extends h ∧
        List.Forall₂
          (fun (f : String) (a : Addr) =>
            h.size ≤ a ∧ ∀ t, env.upload f = .ok t →
              InfoShape H h.size a (baseName f) (pyStripQuotes t)) fs infos := by
  induction fs with
  | nil =>
    intro h _
    refine ⟨[], h, ?_, Heap.extends_refl h, .nil⟩
    rw [uploadLoop_nil]
    rfl
  | cons f fs ih =>
    intro h hall
    obtain ⟨hsz, t, hu⟩ := hall f (List.mem_cons_self f fs)
    obtain ⟨infoA, H1, hequp, hx1, hsz1, hge, hshape⟩ := upload_ok_full hsz hu
    obtain ⟨infos, H2, heq2, hx2, hforall⟩ :=
      ih H1 (fun g hg => hall g (List.mem_cons_of_mem f hg))
    refine ⟨infoA :: infos, H2, ?_, Heap.extends_trans hx2 hx1, ?_⟩
    · rw [uploadLoop_cons_ok hequp fs, heq2]
      rfl
    · refine List.Forall₂.cons ⟨hge, fun t' hu' => ?_⟩ ?_
      · have ht : t' = t := by
          have hcomp : (Except.ok t : Except PyError String) = .ok t' := hu ▸ hu'
          exact (Except.ok.inj hcomp).symm
        subst ht
        exact hshape.mono_heap hx2
      · refine hforall.imp ?_
        intro g a hga
        refine ⟨le_trans (by omega) hga.1, fun t' hu' => ?_⟩
        exact (hga.2 t' hu').mono_lo (by omega)

/-! Characterization of the merge step. -/

theorem update_ok {h : Heap} {jobA fA : Addr} {xs : List Addr}
    (e : fileInfoSlot h jobA = some (fA, xs)) (infos : List Addr) :
    ∃ hf : Heap,
      update_file_info_in_job h jobA infos =
        (hf, infos.map Event.appendInfo, .ok jobA) ∧
      fileInfoSlot hf jobA = some (fA, xs ++ infos) ∧
      (∀ a, a ≠ fA → hf.get a = h.get a) ∧
      hf.size = h.size := by
  induction infos generalizing h xs with
  | nil =>
    exact ⟨h, update_nil h jobA, by simpa using e, fun a _ => rfl, rfl⟩
  | cons i rest ih =>
    have e1 : fileInfoSlot (h.set fA (.arr (xs ++ [i]))) jobA =
        some (fA, xs ++ [i]) := fileInfoSlot_set e (xs ++ [i])
    obtain ⟨hf, hu, hslot, hframe, hsize⟩ := ih e1
    refine ⟨hf, ?_, ?_, ?_, ?_⟩
    · rw [update_cons_some (tryAppendFileInfo_some e i) rest, hu]
      rfl
    · rw [List.append_assoc, List.singleton_append] at hslot
      exact hslot
    · intro a ha
      rw [hframe a ha, Heap.get_set_ne (Ne.symm ha) _]
    · rw [hsize, Heap.size_set]

theorem update_fail {h : Heap} {jobA : Addr} (e : fileInfoSlot h jobA = none)
    {infos : List Addr} (hne : infos ≠ []) :
    update_file_info_in_job h jobA infos =
      (h, [], .error (.exit1 missingStructureMessage)) := by
  cases infos with
  | nil => exact absurd rfl hne
  | cons i rest => exact update_cons_none (tryAppendFileInfo_none e i) rest

theorem update_error_inv {h : Heap} {jobA : Addr} {infos : List Addr}
    {err : Fatal}
    (e : (update_file_info_in_job h jobA infos).2.2 = .error err) :
    err = .exit1 missingStructureMessage ∧
      (update_file_info_in_job h jobA infos).1 = h ∧
      (update_file_info_in_job h jobA infos).2.1 = [] := by
  cases hslot : fileInfoSlot h jobA with
  | some p =>
    obtain ⟨fA, xs⟩ := p
    obtain ⟨hf, hu, -, -, -⟩ := update_ok hslot infos
    rw [hu] at e
    simp at e
  | none =>
    cases hin : infos with
    | nil =>
      subst hin
      rw [update_nil] at e
      simp at e
    | cons i rest =>
      subst hin
      rw [update_fail hslot (by simp)] at e ⊢
      simp at e
      exact ⟨e.symm, rfl, rfl⟩

theorem update_trace (jobA : Addr) (infos : List Addr) :
    ∀ h : Heap, ∀ ev ∈ (update_file_info_in_job h jobA infos).2.1,
      ∃ i, ev = .appendInfo i := by
  induction infos with
  | nil =>
    intro h ev hev
    rw [update_nil] at hev
    simp at hev
  | cons i rest ih =>
    intro h ev hev
    cases ht : tryAppendFileInfo h jobA i with
    | some h1 =>
      rw [update_cons_some ht rest] at hev
      have hev2 : ev = Event.appendInfo i ∨
          ev ∈ (update_file_info_in_job h1 jobA rest).2.1 := by simpa using hev
      rcases hev2 with rfl | h2
      · exact ⟨i, rfl⟩
      · exact ih h1 ev h2
    | none =>
      rw [update_cons_none ht rest] at hev
      simp at hev

theorem add_trace (env : Env) (h : Heap) (jobA : Addr) (files : List String) :
    ∀ ev ∈ (add_file_info_to_job env h jobA files).2.1,
      (∃ g, ev = .uploadCall g) ∨ (∃ i, ev = .appendInfo i) := by
  intro ev hev
  rcases hul : uploadLoop env h files with ⟨h1, evs, r⟩
  have htr : ∀ ev ∈ evs, ∃ g, ev = .uploadCall g := by
    have hh := uploadLoop_trace env files h
    rw [hul] at hh
    exact hh
  cases r with
  | error err =>
    rw [add_eq_error hul] at hev
    exact Or.inl (htr ev hev)
  | ok infos =>
    cases infos with
    | nil =>
      rw [add_eq_ok_nil hul] at hev
      exact Or.inl (htr ev hev)
    | cons i is =>
      rw [add_eq_ok_cons hul] at hev
      have hev2 : ev ∈ evs ∨
          ev ∈ (update_file_info_in_job h1 jobA (i :: is)).2.1 := by
        simpa using hev
      rcases hev2 with h2 | h2
      · exact Or.inl (htr ev h2)
      · exact Or.inr (update_trace jobA (i :: is) h1 ev h2)

/-- A run of the assembler that dies of an uncaught Python exception died
inside the upload loop: the heap was only extended by fresh cells and the
trace holds nothing but upload calls. -/
theorem add_pyRaise_inv {env : Env} {h : Heap} {jobA : Addr}
    {files : List String} {err : PyError}
    (e : (add_file_info_to_job env h jobA files).2.2 = .error (.pyRaise err)) :
    (add_file_info_to_job env h jobA files).1.Extends h ∧
      ∀ ev ∈ (add_file_info_to_job env h jobA files).2.1,
        ∃ g, ev = .uploadCall g := by
  rcases hul : uploadLoop env h files with ⟨h1, evs, r⟩
  have hxt : h1.Extends h := by
    have hh := uploadLoop_extends env files h
    rw [hul] at hh
    exact hh
  have htr : ∀ ev ∈ evs, ∃ g, ev = .uploadCall g := by
    have hh := uploadLoop_trace env files h
    rw [hul] at hh
    exact hh
  cases r with
  | error err2 =>
    rw [add_eq_error hul]
    exact ⟨hxt, htr⟩
  | ok infos =>
    cases infos with
    | nil =>
      rw [add_eq_ok_nil hul] at e
      simp at e
    | cons i is =>
      rw [add_eq_ok_cons hul] at e
      obtain ⟨hmsg, -, -⟩ := update_error_inv e
      cases hmsg

/-! Unfolding equations for the submit command. -/

theorem submit_eq_error {env : Env} {fsys : FS} {h h1 : Heap} {jobA : Addr}
    {files : List String} {evs : List Event} {err : Fatal}
    {out : Option String}
    (e : add_file_info_to_job env h jobA files = (h1, evs, .error err)) :
    submit env fsys h jobA out files = (h1, evs, .error err) := by
  unfold submit
  rw [e]

theorem submit_eq_ok_output_crash {env : Env} {fsys : FS} {h h1 : Heap}
    {jobA jobA1 : Addr} {files : List String} {evs : List Event} {p : String}
    (hp : ¬ p = "")
    (e : add_file_info_to_job env h jobA files = (h1, evs, .ok jobA1)) :
    submit env fsys h jobA (some p) files =
      (h1, evs, .error (.pyRaise
        (if fsys.pathExists p then PyError.unsupportedOperationNotWritable
         else PyError.fileNotFoundError p))) := by
  unfold submit
  rw [e]
  by_cases hex : fsys.pathExists p
  · simp [pyOpenDefault, jsonDumpTo, hp, hex]
  · simp [pyOpenDefault, jsonDumpTo, hp, hex]

/-! Characterization of the quote stripping done on upload responses. -/

theorem pyStripQuotes_decomp (s : String) :
    ∃ m n, s.data = List.replicate m '"' ++ (pyStripQuotes s).data ++
      List.replicate n '"' := by
  refine ⟨(s.data.takeWhile (fun c => c == '"')).length,
    ((s.data.dropWhile (fun c => c == '"')).reverse.takeWhile
      (fun c => c == '"')).length, ?_⟩
  have hrep1 : s.data.takeWhile (fun c => c == '"') =
      List.replicate (s.data.takeWhile (fun c => c == '"')).length '"' := by
    refine List.eq_replicate_of_mem (fun b hb => ?_)
    have hp := List.mem_takeWhile_imp hb
    exact eq_of_beq hp
  have hrep2 : (s.data.dropWhile (fun c => c == '"')).reverse.takeWhile
        (fun c => c == '"') =
      List.replicate ((s.data.dropWhile (fun c => c == '"')).reverse.takeWhile
        (fun c => c == '"')).length '"' := by
    refine List.eq_replicate_of_mem (fun b hb => ?_)
    have hp := List.mem_takeWhile_imp hb
    exact eq_of_beq hp
  have hsplit : (s.data.dropWhile (fun c => c == '"')).reverse =
      (s.data.dropWhile (fun c => c == '"')).reverse.takeWhile (fun c => c == '"') ++
        (s.data.dropWhile (fun c => c == '"')).reverse.dropWhile (fun c => c == '"') :=
    (List.takeWhile_append_dropWhile _ _).symm
  have hd : s.data.dropWhile (fun c => c == '"') =
      (s.data.dropWhile (fun c => c == '"')).reverse.reverse :=
    (List.reverse_reverse _).symm
  have hB : s.data.dropWhile (fun c => c == '"') =
      (pyStripQuotes s).data ++
        List.replicate ((s.data.dropWhile (fun c => c == '"')).reverse.takeWhile
          (fun c => c == '"')).length '"' := by
    conv_lhs => rw [hd]
    conv_lhs => rw [hsplit]
    conv_lhs => rw [List.reverse_append]
    conv_lhs => rw [hrep2]
    conv_lhs => rw [List.reverse_replicate]
    rfl
  calc s.data
      = s.data.takeWhile (fun c => c == '"') ++
          s.data.dropWhile (fun c => c == '"') :=
        (List.takeWhile_append_dropWhile _ s.data).symm
    _ = List.replicate (s.data.takeWhile (fun c => c == '"')).length '"' ++
          ((pyStripQuotes s).data ++
            List.replicate ((s.data.dropWhile (fun c => c == '"')).reverse.takeWhile
              (fun c => c == '"')).length '"') := by rw [← hrep1, ← hB]
    _ = List.replicate (s.data.takeWhile (fun c => c == '"')).length '"' ++
          (pyStripQuotes s).data ++
          List.replicate ((s.data.dropWhile (fun c => c == '"')).reverse.takeWhile
            (fun c => c == '"')).length '"' :=
        (List.append_assoc _ _ _).symm

theorem pyStripQuotes_head (s : String) :
    ∀ c, (pyStripQuotes s).data.head? = some c → (c == '"') = false := by
  intro c hc
  have h1 : (pyStripQuotes s).data.head? =
      ((s.data.dropWhile (fun c => c == '"')).reverse.dropWhile
        (fun c => c == '"')).getLast? :=
    List.head?_reverse _
  rw [h1] at hc
  have hne : (s.data.dropWhile (fun c => c == '"')).reverse.dropWhile
      (fun c => c == '"') ≠ [] := by
    intro h0
    rw [h0] at hc
    cases hc
  have h3 : ((s.data.dropWhile (fun c => c == '"')).reverse).getLast? = some c := by
    conv_lhs => rw [← List.takeWhile_append_dropWhile (fun c => c == '"')
      (s.data.dropWhile (fun c => c == '"')).reverse]
    rw [List.getLast?_append_of_ne_nil _ hne]
    exact hc
  rw [List.getLast?_reverse] at h3
  have h4 := List.head?_dropWhile_not (fun c => c == '"') s.data
  rw [h3] at h4
  exact h4

theorem pyStripQuotes_last (s : String) :
    ∀ c, (pyStripQuotes s).data.getLast? = some c → (c == '"') = false := by
  intro c hc
  have h1 : (pyStripQuotes s).data.getLast? =
      ((s.data.dropWhile (fun c => c == '"')).reverse.dropWhile
        (fun c => c == '"')).head? :=
    List.getLast?_reverse _
  rw [h1] at hc
  have h4 := List.head?_dropWhile_not (fun c => c == '"')
    (s.data.dropWhile (fun c => c == '"')).reverse
  rw [hc] at h4
  exact h4

theorem getObjField_mono {h2 h1 : Heap} (hx : h2.Extends h1) {a : Addr}
    {k : String} {b : Addr} (e : getObjField h1 a k = some b) :
    getObjField h2 a k = some b := by
  unfold getObjField at e ⊢
  cases hv : h1.get a with
  | none => rw [hv] at e; cases e
  | some v =>
    rw [hv] at e
    rw [Heap.get_mono hx hv]
    cases v with
    | obj kvs => exact e
    | null => cases e
    | bool b0 => cases e
    | num n0 => cases e
    | str s0 => cases e
    | arr es => cases e

theorem fileInfoSlot_mono {h2 h1 : Heap} (hx : h2.Extends h1) {jobA fA : Addr}
    {xs : List Addr} (e : fileInfoSlot h1 jobA = some (fA, xs)) :
    fileInfoSlot h2 jobA = some (fA, xs) := by
  obtain ⟨sA, pA, e1, e2, e3, e4⟩ := fileInfoSlot_inv e
  exact fileInfoSlot_intro (getObjField_mono hx e1) (getObjField_mono hx e2)
    (getObjField_mono hx e3) (Heap.get_mono hx e4)

theorem uploadLoop_ok_length (env : Env) (fs : List String) :
    ∀ (h : Heap) (infos : List Addr),
      (uploadLoop env h fs).2.2 = .ok infos → infos.length = fs.length := by
  induction fs with
  | nil =>
    intro h infos he
    rw [uploadLoop_nil] at he
    have h2 : ([] : List Addr) = infos := Except.ok.inj he
    rw [← h2]
    rfl
  | cons f fs ih =>
    intro h infos he
    by_cases hs : env.fileSize f > MAX_FILE_SIZE
    · rw [uploadLoop_cons_error (upload_eq_oversize hs) fs] at he
      cases he
    · cases hu : env.upload f with
      | error err =>
        rw [uploadLoop_cons_error (upload_eq_error hs hu) fs] at he
        cases he
      | ok t =>
        rw [uploadLoop_cons_ok (upload_eq_ok hs hu) fs] at he
        cases hrec : (uploadLoop env
            (allocFileInfo h (baseName f) (pyStripQuotes t)).1 fs).2.2 with
        | error e2 =>
          rw [hrec] at he
          cases he
        | ok infos2 =>
          rw [hrec] at he
          have h3 : (allocFileInfo h (baseName f) (pyStripQuotes t)).2 :: infos2
              = infos := Except.ok.inj he
          rw [← h3]
          simp [ih _ infos2 hrec]

/-! Claim theorems. -/

/-- C6: for every job document (any heap, any document address), calling
the assembler with an empty file list returns the very same heap (so the
document is deep-equal to the input and no merge happened), an empty event
trace (no upload, no append), and a successful result carrying the input
document — regardless of whether the document contains the
`setup.package.fileInformations` structure. -/
theorem C6_empty_files_identity (env : Env) (h : Heap) (jobA : Addr) :
    add_file_info_to_job env h jobA [] = (h, [], .ok jobA) :=
  add_eq_ok_nil (uploadLoop_nil env h)

/-- C9: `print_response` never crashes (it is total): when the response
body fails to parse as structured data it falls back to printing the raw
body text, and when the body parses it prints the pretty-printed parsed
structure. -/
theorem C9_print_response_fallback {α : Type} (parse : String → Option α)
    (dumps : α → String) (text : String) :
    (parse text = none → print_response parse dumps text = text) ∧
    (∀ v, parse text = some v → print_response parse dumps text = dumps v) := by
  constructor
  · intro hp
    unfold print_response
    rw [hp]
  · intro v hp
    unfold print_response
    rw [hp]

theorem C9_print_response_fallback_witness :
    print_response (fun s => if s = "1" then some 1 else none)
      (fun n : Nat => toString n) "x" = "x" ∧
    print_response (fun s => if s = "1" then some 1 else none)
      (fun n : Nat => toString n) "1" = toString 1 := by
  have h1 := C9_print_response_fallback
    (fun s => if s = "1" then some 1 else none) (fun n : Nat => toString n) "x"
  have h2 := C9_print_response_fallback
    (fun s => if s = "1" then some 1 else none) (fun n : Nat => toString n) "1"
  exact ⟨h1.1 (by decide), h2.2 1 (by decide)⟩

/-- C4: a file whose size exceeds 4194304 bytes makes the upload operation
abort the whole run with the size message — before any network call (the
trace is empty) and without touching the heap — and that message carries
both the offending file name and its byte size; a file of size exactly
4194304 bytes is not rejected: its upload call is made and no
`exit(1)`-style fatal result can occur (only a transport exception
could). -/
theorem C4_size_limit_enforced (env : Env) (h : Heap) (file : String) :
    (env.fileSize file > MAX_FILE_SIZE →
      upload_file_and_generate_file_info env h file =
        (h, [], .error (.exit1 (sizeErrorMessage file (env.fileSize file)))) ∧
      (∃ pre suf, sizeErrorMessage file (env.fileSize file) =
        pre ++ file ++ suf) ∧
      (∃ pre suf, sizeErrorMessage file (env.fileSize file) =
        pre ++ toString (env.fileSize file) ++ suf)) ∧
    (env.fileSize file = MAX_FILE_SIZE →
      (upload_file_and_generate_file_info env h file).2.1 =
        [.uploadCall file] ∧
      ∀ msg, (upload_file_and_generate_file_info env h file).2.2 ≠
        .error (.exit1 msg)) := by
  constructor
  · intro hgt
    refine ⟨upload_eq_oversize hgt, ?_, ?_⟩
    · refine ⟨"ERROR: file \"", "\" has byte size " ++
        toString (env.fileSize file) ++ ", which exceeds limit of 4mb", ?_⟩
      simp [sizeErrorMessage, String.append_assoc]
    · refine ⟨"ERROR: file \"" ++ file ++ "\" has byte size ",
        ", which exceeds limit of 4mb", ?_⟩
      simp [sizeErrorMessage, String.append_assoc]
  · intro heq
    have hng : ¬ env.fileSize file > MAX_FILE_SIZE := by omega
    cases hu : env.upload file with
    | error err =>
      rw [upload_eq_error hng hu]
      refine ⟨rfl, fun msg hmsg => ?_⟩
      have h2 : Fatal.pyRaise err = Fatal.exit1 msg := Except.error.inj hmsg
      cases h2
    | ok t =>
      rw [upload_eq_ok hng hu]
      refine ⟨rfl, fun msg hmsg => ?_⟩
      cases hmsg

theorem C4_size_limit_enforced_witness :
    upload_file_and_generate_file_info envBig hEmptyObj "big.bin" =
      (hEmptyObj, [], .error (.exit1 (sizeErrorMessage "big.bin" 4194305))) ∧
    (upload_file_and_generate_file_info envMax hEmptyObj "f.bin").2.1 =
      [.uploadCall "f.bin"] := by
  have h1 := C4_size_limit_enforced envBig hEmptyObj "big.bin"
  have h2 := C4_size_limit_enforced envMax hEmptyObj "f.bin"
  exact ⟨(h1.1 (by decide)).1, (h2.2 rfl).1⟩

/-- C1 counterexample: the code applies Python `str.strip('"')`, which
removes every leading and trailing double quote, not exactly one.  For the
upload response `""a""` the stored url is `a`, while the claim ("exactly
one leading and one trailing double-quote character removed") demands
`"a"`; the two differ. -/
theorem C1_strip_exactly_one_refuted :
    (upload_file_and_generate_file_info envDouble hEmptyObj "f").2.2 =
      .ok 4 ∧
    readStrField (upload_file_and_generate_file_info envDouble hEmptyObj "f").1
      4 "url" = some "a" ∧
    stripOneQuoteSpec "\"\"a\"\"" = "\"a\"" ∧
    ("a" : String) ≠ "\"a\"" := by
  refine ⟨?_, ?_, ?_, ?_⟩ <;> decide

/-- C1 (amended): for every uploaded file, the stored `url` equals the
upload response body text with ALL leading and ALL trailing double-quote
characters removed (Python `str.strip('"')` semantics): the response text
decomposes as quotes ++ url ++ quotes and the stored url neither starts nor
ends with a double quote; in particular `"abc123"` yields `abc123` and
`""` yields the empty string. -/
theorem C1_url_strips_all_quotes (env : Env) (h : Heap) (file t : String)
    (hsz : env.fileSize file ≤ MAX_FILE_SIZE) (hu : env.upload file = .ok t) :
    ∃ infoA,
      (upload_file_and_generate_file_info env h file).2.2 = .ok infoA ∧
      readStrField (upload_file_and_generate_file_info env h file).1 infoA
        "url" = some (pyStripQuotes t) ∧
      (∃ m n, t.data = List.replicate m '"' ++ (pyStripQuotes t).data ++
        List.replicate n '"') ∧
      (∀ c, (pyStripQuotes t).data.head? = some c → c ≠ '"') ∧
      (∀ c, (pyStripQuotes t).data.getLast? = some c → c ≠ '"') ∧
      pyStripQuotes "\"abc123\"" = "abc123" ∧
      pyStripQuotes "\"\"" = "" := by
  obtain ⟨infoA, H, hequ, hx, hsz4, hge, hshape⟩ := upload_ok_full hsz hu
  refine ⟨infoA, ?_, ?_, pyStripQuotes_decomp t, ?_, ?_, by decide, by decide⟩
  · rw [hequ]
  · rw [hequ]
    exact hshape.read.2.2
  · exact fun c hc => beq_eq_false_iff_ne.mp (pyStripQuotes_head t c hc)
  · exact fun c hc => beq_eq_false_iff_ne.mp (pyStripQuotes_last t c hc)

theorem C1_url_strips_all_quotes_witness :
    ∃ infoA,
      (upload_file_and_generate_file_info envDouble hEmptyObj "f").2.2 =
        .ok infoA ∧
      readStrField (upload_file_and_generate_file_info envDouble hEmptyObj
        "f").1 infoA "url" = some (pyStripQuotes "\"\"a\"\"") ∧
      (∃ m n, ("\"\"a\"\"" : String).data = List.replicate m '"' ++
        (pyStripQuotes "\"\"a\"\"").data ++ List.replicate n '"') ∧
      (∀ c, (pyStripQuotes "\"\"a\"\"").data.head? = some c → c ≠ '"') ∧
      (∀ c, (pyStripQuotes "\"\"a\"\"").data.getLast? = some c → c ≠ '"') ∧
      pyStripQuotes "\"abc123\"" = "abc123" ∧
      pyStripQuotes "\"\"" = "" :=
  C1_url_strips_all_quotes envDouble hEmptyObj "f" "\"\"a\"\"" (by decide) rfl

/-- C2: for every closed heap holding a job document whose
`setup.package.fileInformations` path is absent, has a missing ancestor
key, or is not a list, and every non-empty file list, assembly fails
fatally (the result is an error, and it carries the missing-structure
`exit(1)` message whenever the uploads themselves do not abort first),
the template is not mutated (every pre-existing heap cell is unchanged),
and no upload call happens after the validation point — the trace holds
upload calls only and no append ever occurs. -/
theorem C2_missing_structure_fails_fatally (env : Env) (h : Heap)
    (jobA : Addr) (files : List String) (hc : h.Closed) (hjob : jobA < h.size)
    (hbad : fileInfoSlot h jobA = none) (hne : files ≠ []) :
    (∃ err, (add_file_info_to_job env h jobA files).2.2 = .error err) ∧
    ((∀ f ∈ files, env.fileSize f ≤ MAX_FILE_SIZE ∧
        ∃ t, env.upload f = .ok t) →
      (add_file_info_to_job env h jobA files).2.2 =
        .error (.exit1 missingStructureMessage)) ∧
    (∀ a, a < h.size →
      (add_file_info_to_job env h jobA files).1.get a = h.get a) ∧
    (∀ ev ∈ (add_file_info_to_job env h jobA files).2.1,
      ∃ g, ev = .uploadCall g) := by
  rcases hul : uploadLoop env h files with ⟨h1, evs, r⟩
  have hxt : h1.Extends h := by
    have hh := uploadLoop_extends env files h
    rw [hul] at hh
    exact hh
  have htr : ∀ ev ∈ evs, ∃ g, ev = .uploadCall g := by
    have hh := uploadLoop_trace env files h
    rw [hul] at hh
    exact hh
  have hbad1 : fileInfoSlot h1 jobA = none := by
    rw [fileInfoSlot_extends_eq hc hxt hjob, hbad]
  cases r with
  | error err =>
    have heq : add_file_info_to_job env h jobA files = (h1, evs, .error err) :=
      add_eq_error hul
    refine ⟨⟨err, by rw [heq]⟩, ?_, ?_, ?_⟩
    · intro hall
      obtain ⟨infos, H, hueq, -, -⟩ := uploadLoop_ok_full env files h hall
      rw [hul] at hueq
      simp at hueq
    · intro a ha
      rw [heq]
      exact Heap.get_extends_lt hxt ha
    · intro ev hev
      rw [heq] at hev
      exact htr ev hev
  | ok infos =>
    have hres : (uploadLoop env h files).2.2 = .ok infos := by rw [hul]
    have hlen := uploadLoop_ok_length env files h infos hres
    have hine : infos ≠ [] := by
      intro h0
      subst h0
      have hfe : files = [] := List.length_eq_zero.mp (by simpa using hlen.symm)
      exact hne hfe
    cases infos with
    | nil => exact absurd rfl hine
    | cons i is =>
      have hupd := update_fail hbad1 (List.cons_ne_nil i is)
      have heq : add_file_info_to_job env h jobA files =
          ((update_file_info_in_job h1 jobA (i :: is)).1,
           evs ++ (update_file_info_in_job h1 jobA (i :: is)).2.1,
           (update_file_info_in_job h1 jobA (i :: is)).2.2) :=
        add_eq_ok_cons hul
      rw [hupd] at heq
      refine ⟨⟨.exit1 missingStructureMessage, by rw [heq]⟩,
        fun _ => by rw [heq], ?_, ?_⟩
      · intro a ha
        rw [heq]
        exact Heap.get_extends_lt hxt ha
      · intro ev hev
        rw [heq] at hev
        have hev2 : ev ∈ evs ++ ([] : List Event) := hev
        rw [List.append_nil] at hev2
        exact htr ev hev2

theorem C2_missing_structure_fails_fatally_witness :
    (add_file_info_to_job envOk hEmptyObj 0 ["f"]).2.2 =
      .error (.exit1 missingStructureMessage) := by
  have hh := C2_missing_structure_fails_fatally envOk hEmptyObj 0 ["f"]
    (by decide) (by decide) (by decide) (by simp)
  exact hh.2.1 (fun f hf =>
    ⟨(by decide : (10 : Nat) ≤ MAX_FILE_SIZE), "\"https://x/abc\"", rfl⟩)

/-- C3: for every well-formed job document (its
`setup.package.fileInformations` path reaches a list) and every file list
whose uploads all succeed within the size limit, assembly succeeds, the
file-information list of the assembled document equals the original list
followed by exactly one fresh entry per input file (so its length equals
the original length plus the number of files), and the appended entries
correspond to the input files in exactly the input order (the i-th
appended entry carries the i-th file's base name and stripped upload
url). -/
theorem C3_append_order_and_length (env : Env) (h : Heap) (jobA fA : Addr)
    (xs : List Addr) (files : List String)
    (hgood : fileInfoSlot h jobA = some (fA, xs))
    (hok : ∀ f ∈ files, env.fileSize f ≤ MAX_FILE_SIZE ∧
      ∃ t, env.upload f = .ok t) :
    ∃ infos : List Addr,
      (add_file_info_to_job env h jobA files).2.2 = .ok jobA ∧
      fileInfoSlot (add_file_info_to_job env h jobA files).1 jobA =
        some (fA, xs ++ infos) ∧
      infos.length = files.length ∧
      List.Forall₂ (fun (f : String) (a : Addr) =>
        ∀ t, env.upload f = .ok t →
          InfoShape (add_file_info_to_job env h jobA files).1 h.size a
            (baseName f) (pyStripQuotes t)) files infos := by
  obtain ⟨infos, H, hueq, hx, hforall⟩ := uploadLoop_ok_full env files h hok
  have hgood1 : fileInfoSlot H jobA = some (fA, xs) := fileInfoSlot_mono hx hgood
  have hlen : infos.length = files.length := hforall.length_eq.symm
  cases hinfos : infos with
  | nil =>
    subst hinfos
    have hfe : files = [] := List.length_eq_zero.mp (by simpa using hlen.symm)
    subst hfe
    have heq : add_file_info_to_job env h jobA [] = (H, [], .ok jobA) :=
      add_eq_ok_nil (by rw [hueq]; rfl)
    refine ⟨[], by rw [heq], ?_, rfl, ?_⟩
    · rw [heq, List.append_nil]
      exact hgood1
    · exact List.Forall₂.nil
  | cons i is =>
    subst hinfos
    obtain ⟨hf, hupd, hslot, hframe, hsize⟩ := update_ok hgood1 (i :: is)
    have heq : add_file_info_to_job env h jobA files =
        ((update_file_info_in_job H jobA (i :: is)).1,
         files.map Event.uploadCall ++
           (update_file_info_in_job H jobA (i :: is)).2.1,
         (update_file_info_in_job H jobA (i :: is)).2.2) :=
      add_eq_ok_cons hueq
    rw [hupd] at heq
    have hfA : fA < h.size := Heap.get_lt (fileInfoSlot_get hgood)
    have htransport : ∀ (a : Addr) (n u : String),
        InfoShape H h.size a n u → InfoShape hf h.size a n u := by
      intro a n u hs
      obtain ⟨aA, aN, aU, g1, g2, g3, g4, b1, b2, b3, b4⟩ := hs
      have hne2 : ∀ x : Addr, h.size ≤ x → x ≠ fA :=
        fun x hx => (Nat.ne_of_lt (lt_of_lt_of_le hfA hx)).symm
      refine ⟨aA, aN, aU, ?_, ?_, ?_, ?_, b1, b2, b3, b4⟩
      · rw [hframe a (hne2 a b4)]; exact g1
      · rw [hframe aA (hne2 aA b1)]; exact g2
      · rw [hframe aN (hne2 aN b2)]; exact g3
      · rw [hframe aU (hne2 aU b3)]; exact g4
    refine ⟨i :: is, by rw [heq], ?_, by omega, ?_⟩
    · rw [heq]
      exact hslot
    · rw [heq]
      refine hforall.imp ?_
      intro g a hga
      exact fun t hu => htransport a _ _ (hga.2 t hu)

theorem C3_append_order_and_length_witness :
    ∃ infos : List Addr,
      (add_file_info_to_job envOk hTemplate 3 ["report.txt"]).2.2 = .ok 3 ∧
      fileInfoSlot (add_file_info_to_job envOk hTemplate 3 ["report.txt"]).1 3 =
        some (0, [] ++ infos) ∧
      infos.length = ["report.txt"].length ∧
      List.Forall₂ (fun (f : String) (a : Addr) =>
        ∀ t, envOk.upload f = .ok t →
          InfoShape (add_file_info_to_job envOk hTemplate 3 ["report.txt"]).1
            hTemplate.size a (baseName f) (pyStripQuotes t)) ["report.txt"]
        infos :=
  C3_append_order_and_length envOk hTemplate 3 0 [] ["report.txt"] (by decide)
    (fun f hf =>
      ⟨(by decide : (10 : Nat) ≤ MAX_FILE_SIZE), "\"https://x/abc\"", rfl⟩)

/-- C5: for every file whose upload succeeds within the size limit, the
generated file-information object is a dict with exactly the three fields
`action` (the literal `DownloadOnly`), `name` (the file path's base name)
and `url` (the unquoted upload result); and in the end-to-end scenario —
template `{"setup": {"package": {"fileInformations": []}}}`, file list
`["report.txt"]`, upload response `"https://x/abc"` — assembly produces the
template with exactly one appended entry
`{action: DownloadOnly, name: report.txt, url: https://x/abc}`. -/
theorem C5_file_info_fields (env : Env) (h : Heap) (file t : String)
    (hsz : env.fileSize file ≤ MAX_FILE_SIZE) (hu : env.upload file = .ok t) :
    (∃ infoA aAct aName aUrl,
      (upload_file_and_generate_file_info env h file).2.2 = .ok infoA ∧
      (upload_file_and_generate_file_info env h file).1.get infoA =
        some (.obj [("action", aAct), ("name", aName), ("url", aUrl)]) ∧
      (upload_file_and_generate_file_info env h file).1.get aAct =
        some (.str "DownloadOnly") ∧
      (upload_file_and_generate_file_info env h file).1.get aName =
        some (.str (baseName file)) ∧
      (upload_file_and_generate_file_info env h file).1.get aUrl =
        some (.str (pyStripQuotes t))) ∧
    add_file_info_to_job envOk hTemplate 3 ["report.txt"] =
      (⟨[.arr [7], .obj [("fileInformations", 0)], .obj [("package", 1)],
         .obj [("setup", 2)], .str "DownloadOnly", .str "report.txt",
         .str "https://x/abc", .obj [("action", 4), ("name", 5), ("url", 6)]]⟩,
       [.uploadCall "report.txt", .appendInfo 7], .ok 3) := by
  constructor
  · obtain ⟨infoA, H, hequ, hx, hsz4, hge, hshape⟩ := upload_ok_full hsz hu
    obtain ⟨aAct, aName, aUrl, g1, g2, g3, g4, -, -, -, -⟩ := hshape
    refine ⟨infoA, aAct, aName, aUrl, ?_, ?_, ?_, ?_, ?_⟩ <;> rw [hequ]
    · exact g1
    · exact g2
    · exact g3
    · exact g4
  · decide

theorem C5_file_info_fields_witness :
    (∃ infoA aAct aName aUrl,
      (upload_file_and_generate_file_info envOk hEmptyObj "report.txt").2.2 =
        .ok infoA ∧
      (upload_file_and_generate_file_info envOk hEmptyObj "report.txt").1.get
        infoA = some (.obj [("action", aAct), ("name", aName), ("url", aUrl)]) ∧
      (upload_file_and_generate_file_info envOk hEmptyObj "report.txt").1.get
        aAct = some (.str "DownloadOnly") ∧
      (upload_file_and_generate_file_info envOk hEmptyObj "report.txt").1.get
        aName = some (.str (baseName "report.txt")) ∧
      (upload_file_and_generate_file_info envOk hEmptyObj "report.txt").1.get
        aUrl = some (.str (pyStripQuotes "\"https://x/abc\""))) ∧
    add_file_info_to_job envOk hTemplate 3 ["report.txt"] =
      (⟨[.arr [7], .obj [("fileInformations", 0)], .obj [("package", 1)],
         .obj [("setup", 2)], .str "DownloadOnly", .str "report.txt",
         .str "https://x/abc", .obj [("action", 4), ("name", 5), ("url", 6)]]⟩,
       [.uploadCall "report.txt", .appendInfo 7], .ok 3) :=
  C5_file_info_fields envOk hEmptyObj "report.txt" "\"https://x/abc\""
    (by decide : (10 : Nat) ≤ MAX_FILE_SIZE) rfl

/-- C7: in every run of the assembler the event trace splits into upload
calls followed by appends — uploads and appends are never interleaved —
and whenever a run dies of an upload failure (an uncaught transport
exception), the job document is still in its original state: every
pre-existing heap cell is untouched and no append event happened at all. -/
theorem C7_uploads_before_appends (env : Env) (h : Heap) (jobA : Addr)
    (files : List String) :
    (∃ us aps, (add_file_info_to_job env h jobA files).2.1 = us ++ aps ∧
      (∀ ev ∈ us, ∃ g, ev = .uploadCall g) ∧
      (∀ ev ∈ aps, ∃ i, ev = .appendInfo i)) ∧
    (∀ err, (add_file_info_to_job env h jobA files).2.2 =
        .error (.pyRaise err) →
      (∀ a, a < h.size →
        (add_file_info_to_job env h jobA files).1.get a = h.get a) ∧
      ∀ ev ∈ (add_file_info_to_job env h jobA files).2.1,
        ∃ g, ev = .uploadCall g) := by
  constructor
  · rcases hul : uploadLoop env h files with ⟨h1, evs, r⟩
    have htr : ∀ ev ∈ evs, ∃ g, ev = .uploadCall g := by
      have hh := uploadLoop_trace env files h
      rw [hul] at hh
      exact hh
    cases r with
    | error err =>
      have heq : add_file_info_to_job env h jobA files = (h1, evs, .error err) :=
        add_eq_error hul
      refine ⟨evs, [], ?_, htr, fun ev hev => absurd hev (by simp)⟩
      rw [heq, List.append_nil]
    | ok infos =>
      cases infos with
      | nil =>
        have heq : add_file_info_to_job env h jobA files = (h1, evs, .ok jobA) :=
          add_eq_ok_nil hul
        refine ⟨evs, [], ?_, htr, fun ev hev => absurd hev (by simp)⟩
        rw [heq, List.append_nil]
      | cons i is =>
        have heq : add_file_info_to_job env h jobA files =
            ((update_file_info_in_job h1 jobA (i :: is)).1,
             evs ++ (update_file_info_in_job h1 jobA (i :: is)).2.1,
             (update_file_info_in_job h1 jobA (i :: is)).2.2) :=
          add_eq_ok_cons hul
        refine ⟨evs, (update_file_info_in_job h1 jobA (i :: is)).2.1, ?_,
          htr, update_trace jobA (i :: is) h1⟩
        rw [heq]
  · intro err he
    obtain ⟨hx, htr2⟩ := add_pyRaise_inv he
    exact ⟨fun a ha => Heap.get_extends_lt hx ha, htr2⟩

theorem C7_uploads_before_appends_witness :
    (add_file_info_to_job envFail hTemplate 3 ["f"]).1.get 0 =
      hTemplate.get 0 := by
  have hh := C7_uploads_before_appends envFail hTemplate 3 ["f"]
  exact (hh.2 (.requestException "connection aborted") (by decide)).1 0
    (by decide)

/-- C8: the `submit` command can never persist the assembled document when
an output path is configured: it opens the output path with Python's
default read mode and then calls `json.dump` on that handle, so whenever
assembly succeeds the run dies of an uncaught `io.UnsupportedOperation`
(path exists) or `FileNotFoundError` (path does not exist) — before the
job is ever submitted — and in every case with a configured output path the
trace contains no successful write and no job submission.  This contradicts
the claim that the finished document is persisted before submission: the
intent is clear from the option name `out_job_file`, so the open mode is a
code bug. -/
theorem C8_output_write_always_crashes (env : Env) (fsys : FS) (h : Heap)
    (jobA : Addr) (files : List String) (p : String) (hp : p ≠ "") :
    (∀ h1 evs jobA1,
      add_file_info_to_job env h jobA files = (h1, evs, .ok jobA1) →
      submit env fsys h jobA (some p) files =
        (h1, evs, .error (.pyRaise
          (if fsys.pathExists p then PyError.unsupportedOperationNotWritable
           else PyError.fileNotFoundError p)))) ∧
    (Event.submitJobCall ∉ (submit env fsys h jobA (some p) files).2.1 ∧
     ∀ q, Event.wroteOutput q ∉ (submit env fsys h jobA (some p) files).2.1) := by
  constructor
  · intro h1 evs jobA1 he
    exact submit_eq_ok_output_crash hp he
  · rcases hadd : add_file_info_to_job env h jobA files with ⟨h1, evs, r⟩
    have htr : ∀ ev ∈ evs,
        (∃ g, ev = .uploadCall g) ∨ (∃ i, ev = .appendInfo i) := by
      have hh := add_trace env h jobA files
      rw [hadd] at hh
      exact hh
    have hnosub : ∀ ev ∈ evs, ev ≠ Event.submitJobCall ∧
        ∀ q, ev ≠ Event.wroteOutput q := by
      intro ev hev
      rcases htr ev hev with ⟨g, rfl⟩ | ⟨i, rfl⟩
      · exact ⟨fun hh => Event.noConfusion hh,
          fun q hh => Event.noConfusion hh⟩
      · exact ⟨fun hh => Event.noConfusion hh,
          fun q hh => Event.noConfusion hh⟩
    cases r with
    | error err =>
      have heq : submit env fsys h jobA (some p) files = (h1, evs, .error err) :=
        submit_eq_error hadd
      rw [heq]
      constructor
      · intro hmem
        exact (hnosub _ hmem).1 rfl
      · intro q hmem
        exact ((hnosub _ hmem).2 q) rfl
    | ok jobA1 =>
      have heq : submit env fsys h jobA (some p) files =
          (h1, evs, .error (.pyRaise
            (if fsys.pathExists p then PyError.unsupportedOperationNotWritable
             else PyError.fileNotFoundError p))) :=
        submit_eq_ok_output_crash hp hadd
      rw [heq]
      constructor
      · intro hmem
        exact (hnosub _ hmem).1 rfl
      · intro q hmem
        exact ((hnosub _ hmem).2 q) rfl

theorem C8_output_write_always_crashes_witness :
    submit envOk fsAll hTemplate 3 (some "out.json") ["report.txt"] =
      (⟨[.arr [7], .obj [("fileInformations", 0)], .obj [("package", 1)],
         .obj [("setup", 2)], .str "DownloadOnly", .str "report.txt",
         .str "https://x/abc", .obj [("action", 4), ("name", 5), ("url", 6)]]⟩,
       [.uploadCall "report.txt", .appendInfo 7],
       .error (.pyRaise .unsupportedOperationNotWritable)) := by
  have hh := C8_output_write_always_crashes envOk fsAll hTemplate 3
    ["report.txt"] "out.json" (by decide)
  exact hh.1 _ _ 3 (by decide)

/-- C10: whenever assembly succeeds, the returned document is the very same
object as the input (the same heap address), and the only change made to
the heap is at the one cell holding the `setup.package.fileInformations`
list, which becomes the original list with exactly one fresh entry per
input file appended; every other pre-existing cell — hence every other key
and value of the document, and every pre-existing list entry — is
unchanged, and with an empty file list the heap is untouched entirely. -/
theorem C10_frame_append_only (env : Env) (h : Heap) (jobA : Addr)
    (files : List String) (hc : h.Closed) (hjob : jobA < h.size) :
    ∀ r, (add_file_info_to_job env h jobA files).2.2 = .ok r →
      r = jobA ∧
      (files = [] → (add_file_info_to_job env h jobA files).1 = h) ∧
      (files ≠ [] → ∃ fA xs newAs,
        fileInfoSlot h jobA = some (fA, xs) ∧
        fileInfoSlot (add_file_info_to_job env h jobA files).1 jobA =
          some (fA, xs ++ newAs) ∧
        newAs.length = files.length ∧
        (∀ a, a < h.size → a ≠ fA →
          (add_file_info_to_job env h jobA files).1.get a = h.get a)) := by
  intro r hr
  rcases hul : uploadLoop env h files with ⟨h1, evs, r0⟩
  have hxt : h1.Extends h := by
    have hh := uploadLoop_extends env files h
    rw [hul] at hh
    exact hh
  cases r0 with
  | error err =>
    rw [add_eq_error hul] at hr
    cases hr
  | ok infos =>
    have hres : (uploadLoop env h files).2.2 = .ok infos := by rw [hul]
    have hlen := uploadLoop_ok_length env files h infos hres
    cases infos with
    | nil =>
      have hfe : files = [] := List.length_eq_zero.mp (by simpa using hlen.symm)
      subst hfe
      rw [uploadLoop_nil] at hul
      have hh1 : h = h1 := congrArg Prod.fst hul
      have heq : add_file_info_to_job env h jobA [] = (h1, evs, .ok jobA) :=
        add_eq_ok_nil hul
      rw [heq] at hr
      refine ⟨(Except.ok.inj hr).symm, fun _ => ?_, fun hne => absurd rfl hne⟩
      rw [heq, ← hh1]
    | cons i is =>
      have hne : files ≠ [] := by
        intro h0
        subst h0
        rw [uploadLoop_nil] at hul
        have hbad := congrArg (fun z => z.2.2) hul
        simp at hbad
      cases hslot : fileInfoSlot h jobA with
      | none =>
        have hbad1 : fileInfoSlot h1 jobA = none := by
          rw [fileInfoSlot_extends_eq hc hxt hjob, hslot]
        have hupd := update_fail hbad1 (List.cons_ne_nil i is)
        have heq : add_file_info_to_job env h jobA files =
            ((update_file_info_in_job h1 jobA (i :: is)).1,
             evs ++ (update_file_info_in_job h1 jobA (i :: is)).2.1,
             (update_file_info_in_job h1 jobA (i :: is)).2.2) :=
          add_eq_ok_cons hul
        rw [hupd] at heq
        rw [heq] at hr
        cases hr
      | some p0 =>
        obtain ⟨fA, xs⟩ := p0
        have hgood1 : fileInfoSlot h1 jobA = some (fA, xs) := by
          rw [fileInfoSlot_extends_eq hc hxt hjob, hslot]
        obtain ⟨hf, hupd, hslot1, hframe, hsize⟩ := update_ok hgood1 (i :: is)
        have heq : add_file_info_to_job env h jobA files =
            ((update_file_info_in_job h1 jobA (i :: is)).1,
             evs ++ (update_file_info_in_job h1 jobA (i :: is)).2.1,
             (update_file_info_in_job h1 jobA (i :: is)).2.2) :=
          add_eq_ok_cons hul
        rw [hupd] at heq
        rw [heq] at hr
        refine ⟨(Except.ok.inj hr).symm, fun hfe => absurd hfe hne,
          fun _ => ⟨fA, xs, i :: is, rfl, ?_, by omega, ?_⟩⟩
        · rw [heq]
          exact hslot1
        · intro a ha hafA
          rw [heq]
          have h2 : hf.get a = h1.get a := hframe a hafA
          rw [h2]
          exact Heap.get_extends_lt hxt ha

theorem C10_frame_append_only_witness :
    ∃ fA xs newAs,
      fileInfoSlot hTemplate 3 = some (fA, xs) ∧
      fileInfoSlot (add_file_info_to_job envOk hTemplate 3 ["report.txt"]).1 3 =
        some (fA, xs ++ newAs) ∧
      newAs.length = ["report.txt"].length ∧
      (∀ a, a < hTemplate.size → a ≠ fA →
        (add_file_info_to_job envOk hTemplate 3 ["report.txt"]).1.get a =
          hTemplate.get a) := by
  have hh := C10_frame_append_only envOk hTemplate 3 ["report.txt"]
    (by decide) (by decide)
  exact (hh 3 (by decide)).2.2 (by simp)

end Msrd
